import Mathlib

/-!
Verification development for the youtube-summarizer backend.

The definitions below are shallow embeddings of the Go source:
`backend/services/youtube.go`, `backend/services/openai.go`,
`backend/models/cache.go`, `backend/models/user_summary.go`, and the
summary API handler file (worker pool, SSE hub, request handler).

Go machine details are modelled as follows: `float64` transcript times
become integer *milliseconds* (`ℤ`).  Every time value in this program
is produced by `parseVttTimestamp` as `h*3600 + m*60 + s + ms/1000`
seconds — an exact multiple of 1/1000 — and every operation performed
on times (sums, differences, comparisons against the constants 0, 15,
400 and 800 seconds) is linear, so the float code computes the same
ordering and signs as exact arithmetic scaled by 1000.  Go maps become
functions into `Option` or association lists; file-system and
child-process effects become explicit oracle parameters recording
their outcome.
-/

namespace YTS

/-! ## Go string helpers (strings.Split, Contains, TrimSpace, strconv.Atoi) -/

/-- Go whitespace class used by `strings.TrimSpace` (ASCII part of `unicode.IsSpace`). -/
def goSpace (c : Char) : Bool :=
  c = ' ' || c = '\t' || c = '\n' || c = '\x0b' || c = '\x0c' || c = '\r'

/-- `strings.TrimSpace` on a character list. -/
def trimSpace (l : List Char) : List Char :=
  ((l.dropWhile goSpace).reverse.dropWhile goSpace).reverse

/-- One step of `strings.Split`: `splitOnAux` scans for the separator,
accumulating the current field in `acc`.  `fuel` bounds the recursion;
`fuel = length + 1` is always enough because every step consumes a
character (the separator is nonempty everywhere we use this). -/
def splitOnAux (sep : List Char) : Nat → List Char → List Char → List (List Char)
  | 0, acc, _ => [acc]
  | fuel + 1, acc, l =>
    if sep.isPrefixOf l ∧ sep ≠ [] then
      acc :: splitOnAux sep fuel [] (l.drop sep.length)
    else
      match l with
      | [] => [acc]
      | c :: rest => splitOnAux sep fuel (acc ++ [c]) rest

/-- `strings.Split(s, sep)` for a nonempty separator. -/
def splitOn (sep l : List Char) : List (List Char) :=
  splitOnAux sep (l.length + 1) [] l

/-- `strings.Contains(l, sub)` for a nonempty substring. -/
def containsSub (sub l : List Char) : Bool :=
  l.tails.any (fun t => sub.isPrefixOf t)

/-- All-decimal-digit check with value, used to model `strconv.Atoi`. -/
def digitsVal? (l : List Char) : Option Nat :=
  if l ≠ [] ∧ l.all Char.isDigit then
    some (l.foldl (fun acc c => acc * 10 + (c.toNat - 48)) 0)
  else none

/-- `strconv.Atoi` as the Go callers here use it: they ignore the error,
and Go returns `0` alongside a syntax error, so invalid input maps to `0`.
(The 64-bit clamp on out-of-range literals is not modelled; no claim
touches 19+-digit components.) -/
def goAtoi (l : List Char) : Int :=
  match l with
  | '+' :: rest => ((digitsVal? rest).getD 0 : Int)
  | '-' :: rest => -((digitsVal? rest).getD 0 : Int)
  | _ => ((digitsVal? l).getD 0 : Int)

/-! ## services/youtube.go — GetVideoID

The Go function tries three regular expressions in order and returns the
first capture group of the first one that matches anywhere in the URL:
```
(?:youtube\.com\/watch\?v=|youtu.be\/)([^&\?\/]+)
youtube\.com\/embed\/([^\/\?]+)
youtube\.com\/v\/([^\/\?]+)
```
Note that the dot in `youtu.be` is unescaped (matches any character
except a newline) and the captures are maximal nonempty runs of the
complement character classes — nothing restricts them to 11 characters.
-/

/-- Character class `[^&\?\/]` of the first pattern's capture group. -/
def idChar1 (c : Char) : Bool := c ≠ '&' && c ≠ '?' && c ≠ '/'

/-- Character class `[^\/\?]` of the embed/v patterns' capture groups. -/
def idChar23 (c : Char) : Bool := c ≠ '/' && c ≠ '?'

/-- If `p` is a prefix of `l`, the remainder of `l` after it. -/
def afterLit (p l : List Char) : Option (List Char) :=
  if p.isPrefixOf l then some (l.drop p.length) else none

/-- Greedy nonempty capture `([class]+)` at the front of `l`. -/
def captureRun (cls : Char → Bool) (l : List Char) : Option (List Char) :=
  if (l.takeWhile cls).isEmpty then none else some (l.takeWhile cls)

/-- Remainder after the alternative `youtu.be\/` (the `.` matches any
character other than a newline, exactly as Go's unescaped dot does). -/
def afterYoutuBe (l : List Char) : Option (List Char) :=
  match afterLit "youtu".data l with
  | some (c :: rest) =>
    if c ≠ '\n' ∧ "be/".data.isPrefixOf rest then some (rest.drop 3) else none
  | _ => none

/-- Attempt of pattern 1 anchored at the front of `l`: the alternation
`youtube\.com\/watch\?v=|youtu.be\/` (first alternative preferred, as in
the regex), then the capture `([^&\?\/]+)`. -/
def matchPat1At (l : List Char) : Option (List Char) :=
  match afterLit "youtube.com/watch?v=".data l with
  | some rest =>
    match captureRun idChar1 rest with
    | some run => some run
    | none =>
      match afterYoutuBe l with
      | some rest2 => captureRun idChar1 rest2
      | none => none
  | none =>
    match afterYoutuBe l with
    | some rest2 => captureRun idChar1 rest2
    | none => none

/-- Attempt of pattern 2 (`youtube\.com\/embed\/([^\/\?]+)`) at the front. -/
def matchPat2At (l : List Char) : Option (List Char) :=
  match afterLit "youtube.com/embed/".data l with
  | some rest => captureRun idChar23 rest
  | none => none

/-- Attempt of pattern 3 (`youtube\.com\/v\/([^\/\?]+)`) at the front. -/
def matchPat3At (l : List Char) : Option (List Char) :=
  match afterLit "youtube.com/v/".data l with
  | some rest => captureRun idChar23 rest
  | none => none

/-- Leftmost-match search: try the anchored matcher at every position,
left to right, as `regexp.FindStringSubmatch` does. -/
def findLeftmost (f : List Char → Option (List Char)) : List Char → Option (List Char)
  | [] => none
  | c :: rest =>
    match f (c :: rest) with
    | some r => some r
    | none => findLeftmost f rest

/-- `services.GetVideoID`: the three patterns are tried in order over the
whole URL; the first leftmost match's capture group is returned. -/
def GetVideoID (url : String) : Option String :=
  match findLeftmost matchPat1At url.data with
  | some r => some (String.mk r)
  | none =>
    match findLeftmost matchPat2At url.data with
    | some r => some (String.mk r)
    | none =>
      match findLeftmost matchPat3At url.data with
      | some r => some (String.mk r)
      | none => none

/-! ### Properties of GetVideoID (claim C2) -/

theorem captureRun_spec {cls : Char → Bool} {l r : List Char}
    (h : captureRun cls l = some r) : r ≠ [] ∧ ∀ c ∈ r, cls c := by
  unfold captureRun at h
  split at h
  · exact absurd h (by simp)
  · next hne =>
    cases h
    refine ⟨by simpa using hne, fun c hc => List.mem_takeWhile_imp hc⟩

theorem matchPat1At_spec {l r : List Char} (h : matchPat1At l = some r) :
    r ≠ [] ∧ ∀ c ∈ r, idChar1 c := by
  unfold matchPat1At at h
  repeat' split at h
  all_goals first
    | exact Option.noConfusion h
    | (cases h; exact captureRun_spec (by assumption))
    | exact captureRun_spec h

theorem matchPat2At_spec {l r : List Char} (h : matchPat2At l = some r) :
    r ≠ [] ∧ ∀ c ∈ r, idChar23 c := by
  unfold matchPat2At at h
  split at h
  · exact captureRun_spec h
  · exact Option.noConfusion h

theorem matchPat3At_spec {l r : List Char} (h : matchPat3At l = some r) :
    r ≠ [] ∧ ∀ c ∈ r, idChar23 c := by
  unfold matchPat3At at h
  split at h
  · exact captureRun_spec h
  · exact Option.noConfusion h

theorem findLeftmost_spec {f : List Char → Option (List Char)} {P : List Char → Prop}
    (hf : ∀ l r, f l = some r → P r) :
    ∀ {l r}, findLeftmost f l = some r → P r := by
  intro l
  induction l with
  | nil => intro r h; exact Option.noConfusion h
  | cons c rest ih =>
    intro r h
    unfold findLeftmost at h
    split at h
    · cases h; exact hf _ _ (by assumption)
    · exact ih h

/-- C2 (amended): every identifier `GetVideoID` returns is a nonempty
string whose characters are none of `/` or `?` (the class common to all
three capture groups); nothing constrains it to 11 characters. -/
theorem GetVideoID_success_shape (url id : String)
    (h : GetVideoID url = some id) :
    id ≠ "" ∧ ∀ c ∈ id.data, c ≠ '/' ∧ c ≠ '?' := by
  have hchar1 : ∀ c : Char, idChar1 c = true → c ≠ '/' ∧ c ≠ '?' := by
    intro c hc
    simp only [idChar1, Bool.and_eq_true, decide_eq_true_eq] at hc
    exact ⟨hc.2, hc.1.2⟩
  have hchar23 : ∀ c : Char, idChar23 c = true → c ≠ '/' ∧ c ≠ '?' := by
    intro c hc
    simp only [idChar23, Bool.and_eq_true, decide_eq_true_eq] at hc
    exact ⟨hc.1, hc.2⟩
  have hmk : ∀ r : List Char, r ≠ [] → String.mk r ≠ "" := by
    intro r hr hc
    exact hr (congrArg String.data hc)
  unfold GetVideoID at h
  repeat' split at h
  all_goals first
    | exact Option.noConfusion h
    | (cases h
       first
       | (have hs := findLeftmost_spec (P := fun r => r ≠ [] ∧ ∀ c ∈ r, idChar1 c)
            (fun _ _ hm => matchPat1At_spec hm) (by assumption)
          exact ⟨hmk _ hs.1, fun c hc => hchar1 c (hs.2 c hc)⟩)
       | (have hs := findLeftmost_spec (P := fun r => r ≠ [] ∧ ∀ c ∈ r, idChar23 c)
            (fun _ _ hm => matchPat2At_spec hm) (by assumption)
          exact ⟨hmk _ hs.1, fun c hc => hchar23 c (hs.2 c hc)⟩)
       | (have hs := findLeftmost_spec (P := fun r => r ≠ [] ∧ ∀ c ∈ r, idChar23 c)
            (fun _ _ hm => matchPat3At_spec hm) (by assumption)
          exact ⟨hmk _ hs.1, fun c hc => hchar23 c (hs.2 c hc)⟩))

/-- C2 witness: `GetVideoID` succeeds on a canonical short URL and the
amended shape property holds for the returned identifier. -/
theorem GetVideoID_success_shape_witness :
    GetVideoID "https://youtu.be/dQw4w9WgXcQ" = some "dQw4w9WgXcQ" ∧
      ("dQw4w9WgXcQ" : String) ≠ "" :=
  ⟨by decide, (GetVideoID_success_shape "https://youtu.be/dQw4w9WgXcQ"
      "dQw4w9WgXcQ" (by decide)).1⟩

/-- C2 counterexample: the claim asserts every successful extraction is
an 11-character identifier, but `GetVideoID` happily returns the
3-character capture `"abc"` for `youtube.com/watch?v=abc`. -/
theorem GetVideoID_not_always_11 :
    GetVideoID "https://youtube.com/watch?v=abc" = some "abc" ∧
      ("abc" : String).length ≠ 11 := by
  constructor
  · decide
  · decide

/-! ## services/openai.go — FormatTimestamp and timestamp extraction -/

/-- Value of a decimal digit character, as `fmt.Sscanf("%d")` reads it. -/
def digitVal (c : Char) : Nat := c.toNat - 48

/-- Go `fmt.Sprintf("%02d", n)`: the decimal representation of `n`,
left-padded with `0` to width 2 (wider numbers are printed in full). -/
def pad2 (n : Nat) : List Char :=
  if n ≤ 99 then [Nat.digitChar (n / 10), Nat.digitChar (n % 10)]
  else Nat.toDigits 10 n

/-- `services.FormatTimestamp` on the nonnegative-integer seconds values
the round-trip claim quantifies over (`int(seconds)` is exact there):
`fmt.Sprintf("[%02d:%02d]", totalSeconds/60, totalSeconds%60)`. -/
def FormatTimestamp (totalSeconds : Nat) : String :=
  ⟨'[' :: pad2 (totalSeconds / 60) ++ ':' :: pad2 (totalSeconds % 60) ++ [']']⟩

/-- Time in seconds computed by `extractTimestamps` for a match of
`\[(\d{1,2}):(\d{2})(?::(\d{2}))?\]` whose second `:` group matched:
the code shifts `hours ← g1`, `minutes ← g2`, `seconds ← g3`. -/
def tsTime3 (g1 g2 g3 : Nat) : Nat := g1 * 3600 + g2 * 60 + g3

/-- Time in seconds when the optional group is absent: `g1*60 + g2`. -/
def tsTime2 (g1 g2 : Nat) : Nat := g1 * 60 + g2

/-- Match `:(\d{2})(?::(\d{2}))?\]` after the minutes group, returning
the computed time and the rest of the input.  The optional third group
is preferred when it matches (greedy `?`), as in Go's regexp. -/
def matchAfterMin (g1 : Nat) (l : List Char) : Option (Nat × List Char) :=
  match l with
  | c0 :: s1 :: s2 :: rest =>
    if c0 = ':' ∧ s1.isDigit ∧ s2.isDigit then
      match rest with
      | [] => none
      | d0 :: rest1 =>
        if d0 = ']' then
          some (tsTime2 g1 (10 * digitVal s1 + digitVal s2), rest1)
        else if d0 = ':' then
          match rest1 with
          | t1 :: t2 :: d3 :: rest2 =>
            if t1.isDigit ∧ t2.isDigit ∧ d3 = ']' then
              some (tsTime3 g1 (10 * digitVal s1 + digitVal s2)
                (10 * digitVal t1 + digitVal t2), rest2)
            else none
          | _ => none
        else none
    else none
  | _ => none

/-- Match `\[(\d{1,2})` then the rest of the timestamp pattern at the
front of `l`.  Greedy `\d{1,2}`: two digits are preferred, with
backtracking to one digit if the remainder fails. -/
def matchTsAt (l : List Char) : Option (Nat × List Char) :=
  match l with
  | c0 :: c1 :: rest =>
    if c0 = '[' ∧ c1.isDigit then
      match rest with
      | [] => none
      | c2 :: rest2 =>
        if c2.isDigit then
          match matchAfterMin (10 * digitVal c1 + digitVal c2) rest2 with
          | some r => some r
          | none => matchAfterMin (digitVal c1) rest
        else matchAfterMin (digitVal c1) rest
    else none
  | _ => none

/-- Scan for all non-overlapping matches left to right, continuing after
each match, as `FindAllStringSubmatchIndex` does.  `fuel ≥ length`
suffices since every step consumes at least one character. -/
def scanTsAux : Nat → List Char → List Nat
  | 0, _ => []
  | _ + 1, [] => []
  | fuel + 1, c :: rest =>
    match matchTsAt (c :: rest) with
    | some (t, rest2) => t :: scanTsAux fuel rest2
    | none => scanTsAux fuel rest

/-- The times (in seconds) of the timestamps `services.extractTimestamps`
finds in a summary string.  This embeds the `Time` component of the
returned `TimestampInfo` records; the accompanying `Text` excerpt is
irrelevant to the round-trip claim and not modelled. -/
def extractTimestampTimes (summary : String) : List Nat :=
  scanTsAux summary.data.length summary.data

/-! ### Round-trip properties of FormatTimestamp (claim C6) -/

theorem digitChar_isDigit {x : Nat} (h : x ≤ 9) :
    (Nat.digitChar x).isDigit = true := by
  interval_cases x <;> decide

theorem digitVal_digitChar {x : Nat} (h : x ≤ 9) :
    digitVal (Nat.digitChar x) = x := by
  interval_cases x <;> decide

theorem digitChar_ne_colon {x : Nat} (h : x ≤ 9) : Nat.digitChar x ≠ ':' := by
  interval_cases x <;> decide

theorem digitChar_ne_rbracket {x : Nat} (h : x ≤ 9) : Nat.digitChar x ≠ ']' := by
  interval_cases x <;> decide

theorem scanTs_two_part (x y z w : Nat)
    (hx : x ≤ 9) (hy : y ≤ 9) (hz : z ≤ 9) (hw : w ≤ 9) :
    scanTsAux 7 ['[', Nat.digitChar x, Nat.digitChar y, ':',
      Nat.digitChar z, Nat.digitChar w, ']'] =
    [tsTime2 (10 * x + y) (10 * z + w)] := by
  simp [scanTsAux, matchTsAt, matchAfterMin,
    digitChar_isDigit hx, digitChar_isDigit hy,
    digitChar_isDigit hz, digitChar_isDigit hw,
    digitVal_digitChar hx, digitVal_digitChar hy,
    digitVal_digitChar hz, digitVal_digitChar hw,
    digitChar_ne_colon hz, digitChar_ne_rbracket hz]

/-- C6 (amended): formatting then extracting round-trips, but only for
seconds values below 6000 — i.e. as long as the minutes field fits the
two digits that the extraction regex `\[(\d{1,2}):(\d{2})...\]` allows. -/
theorem FormatTimestamp_roundTrip (s : Nat) (h : s < 6000) :
    extractTimestampTimes (FormatTimestamp s) = [s] := by
  have hm : s / 60 ≤ 99 := by omega
  have hs : s % 60 ≤ 99 := by omega
  have hdata : (FormatTimestamp s).data =
      ['[', Nat.digitChar (s / 60 / 10), Nat.digitChar (s / 60 % 10), ':',
        Nat.digitChar (s % 60 / 10), Nat.digitChar (s % 60 % 10), ']'] := by
    simp [FormatTimestamp, pad2, hm, hs]
  rw [extractTimestampTimes, hdata]
  rw [show (['[', Nat.digitChar (s / 60 / 10), Nat.digitChar (s / 60 % 10), ':',
        Nat.digitChar (s % 60 / 10), Nat.digitChar (s % 60 % 10), ']'] :
      List Char).length = 7 from rfl]
  rw [scanTs_two_part (s / 60 / 10) (s / 60 % 10) (s % 60 / 10) (s % 60 % 10)
    (by omega) (by omega) (by omega) (by omega)]
  simp only [tsTime2, List.cons.injEq, and_true]
  omega

/-- C6 witness: the round-trip at the concrete value 83 (`[01:23]`). -/
theorem FormatTimestamp_roundTrip_witness :
    83 < 6000 ∧ extractTimestampTimes (FormatTimestamp 83) = [83] :=
  ⟨by decide, FormatTimestamp_roundTrip 83 (by decide)⟩

/-- C6 counterexample: at 6000 seconds the formatter prints `[100:00]`,
which the extraction regex cannot match, so no timestamp (let alone one
equal to 6000) is recovered — the unrestricted round-trip claim fails. -/
theorem FormatTimestamp_roundTrip_fails_at_6000 :
    extractTimestampTimes (FormatTimestamp 6000) = [] ∧
      extractTimestampTimes (FormatTimestamp 6000) ≠ [6000] := by
  constructor
  · decide
  · decide

/-! ## services/youtube.go — the VTT parser -/

/-- A transcript entry: `services.TranscriptItem`.  `start` and
`duration` are integer milliseconds; the Go `float64` field in seconds
is the value divided by 1000 (exact — see the header comment). -/
structure TranscriptItem where
  text : String
  start : ℤ
  duration : ℤ
  deriving DecidableEq, Repr

/-- Generic leftmost, non-overlapping `ReplaceAll`: `m` recognises a
match at the front of the list, returning the replacement text and the
rest of the input after the match.  Scanning resumes after each
replacement, as Go's `ReplaceAllString` does.  The fuel is decremented
every step; every matcher used below consumes at least one character,
so `fuel = length` reproduces the unbounded scan. -/
def replaceAllAux (m : List Char → Option (List Char × List Char)) :
    Nat → List Char → List Char
  | 0, l => l
  | _ + 1, [] => []
  | fuel + 1, c :: rest =>
    match m (c :: rest) with
    | some (rep, rest2) => rep ++ replaceAllAux m fuel rest2
    | none => c :: replaceAllAux m fuel rest

/-- Leftmost non-overlapping replace-all over a character list. -/
def replaceAll (m : List Char → Option (List Char × List Char)) (l : List Char) :
    List Char :=
  replaceAllAux m l.length l

/-- Matcher for the inline timing tag `<\d{2}:\d{2}:\d{2}\.\d{3}>`
(14 characters), deleted by `cleanVttLine`. -/
def timingTagAt (l : List Char) : Option (List Char × List Char) :=
  match l with
  | a :: d1 :: d2 :: b :: d3 :: d4 :: c :: d5 :: d6 :: d :: d7 :: d8 :: d9 :: e :: rest =>
    if a = '<' ∧ d1.isDigit ∧ d2.isDigit ∧ b = ':' ∧ d3.isDigit ∧ d4.isDigit ∧
        c = ':' ∧ d5.isDigit ∧ d6.isDigit ∧ d = '.' ∧ d7.isDigit ∧ d8.isDigit ∧
        d9.isDigit ∧ e = '>' then
      some ([], rest)
    else none
  | _ => none

/-- Matcher for `</?c>`: the literal `<c>` or `</c>`, deleted by
`cleanVttLine`. -/
def cTagAt (l : List Char) : Option (List Char × List Char) :=
  match l with
  | a :: b :: c :: rest =>
    if a = '<' ∧ b = 'c' ∧ c = '>' then some ([], rest)
    else
      match rest with
      | d :: rest2 =>
        if a = '<' ∧ b = '/' ∧ c = 'c' ∧ d = '>' then some ([], rest2) else none
      | [] => none
  | _ => none

/-- `services.cleanVttLine`: strip inline timing tags, then `</?c>`
tags, then trim whitespace. -/
def cleanVttLine (l : List Char) : List Char :=
  trimSpace (replaceAll cTagAt (replaceAll timingTagAt l))

/-- Matcher for `<[^>]*>` (an HTML tag): from a `<`, everything up to
and including the first `>`; no match if the tag is never closed. -/
def htmlTagAt (l : List Char) : Option (List Char × List Char) :=
  match l with
  | c :: rest =>
    if c = '<' then
      if rest.any (fun x => x = '>') then
        some ([], (rest.dropWhile (fun x => x ≠ '>')).drop 1)
      else none
    else none
  | [] => none

/-- Matcher for `\s+`: a maximal run of whitespace collapses to one
space. -/
def spaceRunAt (l : List Char) : Option (List Char × List Char) :=
  match l with
  | c :: rest =>
    if goSpace c then some ([' '], rest.dropWhile goSpace) else none
  | [] => none

/-- Matcher for `\[.*?\]|\(.*?\)|\{.*?\}`: a bracketed artifact, the
non-greedy span to the first matching closer with no intervening
newline (Go's `.` does not cross `\n`). -/
def bracketAt (l : List Char) : Option (List Char × List Char) :=
  match l with
  | c :: rest =>
    let tryClose (close : Char) : Option (List Char × List Char) :=
      let inner := rest.takeWhile (fun x => x ≠ close ∧ x ≠ '\n')
      if (rest.drop inner.length).head? = some close then
        some ([], rest.drop (inner.length + 1))
      else none
    if c = '[' then tryClose ']'
    else if c = '(' then tryClose ')'
    else if c = '{' then tryClose '\x7d'
    else none
  | [] => none

/-- `services.cleanTranscriptText`: drop HTML tags, collapse whitespace
runs to single spaces, drop bracketed/parenthesised/braced artifacts,
then trim. -/
def cleanTranscriptText (l : List Char) : List Char :=
  trimSpace (replaceAll bracketAt (replaceAll spaceRunAt (replaceAll htmlTagAt l)))

/-- `services.parseVttTimestamp`: split on `:` (expect 3 parts), split
the last on `.` (expect 2 parts), `Atoi` each field (errors ignored,
yielding 0), and combine as `h*3600 + m*60 + s + ms/1000` seconds —
here in milliseconds: `(h*3600 + m*60 + s)*1000 + ms`. -/
def parseVttTimestamp (l : List Char) : ℤ :=
  match splitOn [':'] l with
  | [p0, p1, p2] =>
    match splitOn ['.'] p2 with
    | [sec, ms] =>
      (goAtoi p0 * 3600 + goAtoi p1 * 60 + goAtoi sec) * 1000 + goAtoi ms
    | _ => 0
  | _ => 0

/-- The cue separator `-->`. -/
def arrowSep : List Char := ['-', '-', '>']

/-- Flush step of `parseVttContent`: clean the collected text and, if
nonempty, emit one item with the current start/end times. -/
def vttFlush (curText : List Char) (startTime endTime : ℤ) : List TranscriptItem :=
  if curText ≠ [] then
    if cleanTranscriptText curText ≠ [] then
      [⟨String.mk (cleanTranscriptText curText), startTime, endTime - startTime⟩]
    else []
  else []

/-- The line loop of `services.parseVttContent`, carrying the collected
text and the most recently parsed cue times. -/
def parseVttLoop : List (List Char) → List Char → ℤ → ℤ → List TranscriptItem
  | [], curText, startTime, endTime => vttFlush curText startTime endTime
  | line :: rest, curText, startTime, endTime =>
    if containsSub arrowSep line then
      vttFlush curText startTime endTime ++
        (match splitOn arrowSep line with
         | [a, b] =>
           parseVttLoop rest [] (parseVttTimestamp (trimSpace a))
             (parseVttTimestamp (trimSpace b))
         | _ => parseVttLoop rest [] startTime endTime)
    else if containsSub "align:".data line || containsSub "position:".data line then
      parseVttLoop rest curText startTime endTime
    else if trimSpace line = [] then
      parseVttLoop rest curText startTime endTime
    else
      match cleanVttLine line with
      | [] => parseVttLoop rest curText startTime endTime
      | cleaned =>
        parseVttLoop rest
          (curText ++ (if curText = [] then [] else [' ']) ++ cleaned)
          startTime endTime

/-- `services.parseVttContent`: reject input without a `WEBVTT` header
or with fewer than 4 lines, then run the line loop on everything after
the first 4 lines. -/
def parseVttContent (vttContent : String) : List TranscriptItem :=
  if (splitOn ['\n'] vttContent.data).length < 4 ||
      !containsSub "WEBVTT".data ((splitOn ['\n'] vttContent.data).headD []) then []
  else parseVttLoop ((splitOn ['\n'] vttContent.data).drop 4) [] 0 0

/-! ### Sign of parsed start/duration (claim C9) -/

/-- A cue line is *well-ordered* when, if it splits around `-->` into
exactly two fields, the parsed start is nonnegative and the parsed end
is not before the parsed start.  (Lines that do not split into exactly
two fields never update the parser's times.) -/
def cueOk (line : List Char) : Bool :=
  match splitOn arrowSep line with
  | [a, b] =>
    decide (0 ≤ parseVttTimestamp (trimSpace a)) &&
      decide (parseVttTimestamp (trimSpace a) ≤ parseVttTimestamp (trimSpace b))
  | _ => true

theorem vttFlush_nonneg {curText : List Char} {startTime endTime : ℤ}
    (hs : 0 ≤ startTime) (hse : startTime ≤ endTime) :
    ∀ item ∈ vttFlush curText startTime endTime,
      0 ≤ item.start ∧ 0 ≤ item.duration := by
  intro item hmem
  unfold vttFlush at hmem
  split at hmem
  · split at hmem
    · rcases List.mem_singleton.mp hmem with rfl
      exact ⟨hs, by simpa using sub_nonneg.mpr hse⟩
    · exact absurd hmem (List.not_mem_nil _)
  · exact absurd hmem (List.not_mem_nil _)

theorem parseVttLoop_nonneg (lines : List (List Char)) :
    ∀ (curText : List Char) (startTime endTime : ℤ),
      (∀ l ∈ lines, cueOk l = true) →
      0 ≤ startTime → startTime ≤ endTime →
      ∀ item ∈ parseVttLoop lines curText startTime endTime,
        0 ≤ item.start ∧ 0 ≤ item.duration := by
  induction lines with
  | nil =>
    intro curText startTime endTime _ hs hse item hmem
    exact vttFlush_nonneg hs hse item hmem
  | cons line rest ih =>
    intro curText startTime endTime hcue hs hse item hmem
    have hcueLine : cueOk line = true := hcue line (List.mem_cons_self _ _)
    have hcueRest : ∀ l ∈ rest, cueOk l = true :=
      fun l hl => hcue l (List.mem_cons_of_mem _ hl)
    unfold parseVttLoop at hmem
    split at hmem
    · rcases List.mem_append.mp hmem with hflush | htail
      · exact vttFlush_nonneg hs hse item hflush
      · split at htail
        · next a b hsp =>
          have hbound : 0 ≤ parseVttTimestamp (trimSpace a) ∧
              parseVttTimestamp (trimSpace a) ≤ parseVttTimestamp (trimSpace b) := by
            unfold cueOk at hcueLine
            rw [hsp] at hcueLine
            simpa using hcueLine
          exact ih [] _ _ hcueRest hbound.1 hbound.2 item htail
        · exact ih [] _ _ hcueRest hs hse item htail
    · split at hmem
      · exact ih curText _ _ hcueRest hs hse item hmem
      · split at hmem
        · exact ih curText _ _ hcueRest hs hse item hmem
        · split at hmem
          · exact ih curText _ _ hcueRest hs hse item hmem
          · exact ih _ _ _ hcueRest hs hse item hmem

/-- C9 (amended): every item produced by `parseVttContent` has
`start ≥ 0` and `duration ≥ 0` *provided* every cue line of the input
parses to a nonnegative start and to an end not before its start.  The
unconditional claim fails: the parser copies cue times verbatim, so a
cue whose end precedes its start yields a negative duration (and a
negative hour field yields a negative start).  Times in ms. -/
theorem parseVttContent_nonneg (content : String)
    (h : ∀ l ∈ (splitOn ['\n'] content.data).drop 4, cueOk l = true) :
    ∀ item ∈ parseVttContent content, 0 ≤ item.start ∧ 0 ≤ item.duration := by
  intro item hmem
  unfold parseVttContent at hmem
  split at hmem
  · exact absurd hmem (List.not_mem_nil _)
  · exact parseVttLoop_nonneg _ _ _ _ h le_rfl le_rfl item hmem

/-- C9 witness: a well-formed cue (5s → 10s) yields the single item
`⟨"hello", 5000ms, 5000ms⟩`, and the amended theorem applied to it
gives the nonnegativity of its start and duration. -/
theorem parseVttContent_nonneg_witness :
    parseVttContent "WEBVTT\n\n\n\n00:00:05.000 --> 00:00:10.000\nhello\n" =
      [⟨"hello", 5000, 5000⟩] ∧
    (0 ≤ (5000 : ℤ) ∧ 0 ≤ (5000 : ℤ)) :=
  ⟨by decide,
    parseVttContent_nonneg "WEBVTT\n\n\n\n00:00:05.000 --> 00:00:10.000\nhello\n"
      (by decide) ⟨"hello", 5000, 5000⟩ (by decide)⟩

/-- C9 counterexample: a syntactically valid VTT whose cue runs from
10s down to 5s produces the single item `⟨"hello", 10000ms, -5000ms⟩`, whose
duration is negative — the unconditional invariant in the claim fails. -/
theorem parseVttContent_negative_duration :
    parseVttContent "WEBVTT\n\n\n\n00:00:10.000 --> 00:00:05.000\nhello\n" =
      [⟨"hello", 10000, -5000⟩] ∧
    ¬ (∀ item ∈ parseVttContent "WEBVTT\n\n\n\n00:00:10.000 --> 00:00:05.000\nhello\n",
        0 ≤ item.start ∧ 0 ≤ item.duration) := by
  constructor
  · decide
  · decide

/-! ## services/youtube.go — sorting and chunking -/

/-- Comparison used by `sortTranscriptItemsByTime` (ascending `Start`).
Go's `sort.Slice` guarantees exactly a sorted permutation; we realise it
with insertion sort, whose output is one such permutation. -/
def startLE (a b : TranscriptItem) : Prop := a.start ≤ b.start

instance : DecidableRel startLE := fun a b => inferInstanceAs (Decidable (a.start ≤ b.start))

instance : IsTotal TranscriptItem startLE := ⟨fun a b => le_total a.start b.start⟩

instance : IsTrans TranscriptItem startLE := ⟨fun _ _ _ h1 h2 => le_trans h1 h2⟩

/-- `services.sortTranscriptItemsByTime`. -/
def sortTranscriptItemsByTime (items : List TranscriptItem) : List TranscriptItem :=
  items.insertionSort startLE

/-- The chunk-splitting loop at the end of `processSubtitleFiles`: a new
chunk begins when the next item's start is at least `chunkSize` past the
current chunk's first item's start.  Note that with `chunkSize ≤ 0` the
condition `item.Start - currentChunkStart < chunkSize` is false already
for the first item, so an empty first chunk is emitted. -/
def chunkLoop (chunkSize : ℤ) :
    List TranscriptItem → List TranscriptItem → ℤ → List (List TranscriptItem) →
      List (List TranscriptItem)
  | [], currentChunk, _, chunks =>
    if currentChunk.length > 0 then chunks ++ [currentChunk] else chunks
  | item :: rest, currentChunk, currentChunkStart, chunks =>
    let start := if currentChunk.length = 0 then item.start else currentChunkStart
    if item.start - start < chunkSize then
      chunkLoop chunkSize rest (currentChunk ++ [item]) start chunks
    else
      chunkLoop chunkSize rest [item] item.start (chunks ++ [currentChunk])

/-- The pure tail of `services.processSubtitleFiles` once the `.vtt`
files have been read and parsed into `allTranscriptItems`: fail if no
items were found, otherwise sort by start time and split into chunks. -/
def processTranscriptItems (allTranscriptItems : List TranscriptItem)
    (chunkSize : ℤ) : Except String (List (List TranscriptItem)) :=
  if allTranscriptItems.length = 0 then
    .error "no usable transcript entries were found"
  else
    .ok (chunkLoop chunkSize (sortTranscriptItemsByTime allTranscriptItems) [] 0 [])

/-- `services.GetTranscript(videoId, chunkSize)`, with the yt-dlp
download and VTT parsing abstracted into the oracle `fetched`: `none`
models a failed download (or no subtitle files), `some items` models
the items parsed from the downloaded `.vtt` files. -/
def GetTranscript (fetched : Option (List TranscriptItem)) (chunkSize : ℤ) :
    Except String (List (List TranscriptItem)) :=
  match fetched with
  | none => .error "yt-dlp failed to download subtitles"
  | some items => processTranscriptItems items chunkSize

/-! ## models/cache.go — the summary cache -/

/-- `models.Timestamp`. -/
structure Timestamp where
  time : ℤ
  text : String
  deriving DecidableEq, Repr

/-- `models.CacheItem`.  `createdAt` models `time.Now()` as an abstract
tick. -/
structure CacheItem where
  videoId : String
  title : String
  summary : String
  timestamps : List Timestamp
  transcript : List TranscriptItem
  createdAt : Nat
  deriving DecidableEq, Repr

/-- The in-memory map `SummaryCache.items` (`videoId → *CacheItem`). -/
abbrev CacheMap := String → Option CacheItem

/-- `SummaryCache.Get`: plain map lookup (the `RLock` only orders
concurrent access). -/
def cacheGet (items : CacheMap) (videoID : String) : Option CacheItem :=
  items videoID

/-- The file `saveToDisk` writes: `filepath.Join(cacheDir, videoID+".json")`. -/
def cacheFileName (cacheDir videoID : String) : String :=
  cacheDir ++ "/" ++ videoID ++ ".json"

/-- The in-memory half of `SummaryCache.Set`: build the new item and
store it under `videoID`. -/
def cacheSetItem (items : CacheMap) (videoID title summary : String)
    (timestamps : List Timestamp) (transcript : List TranscriptItem)
    (now : Nat) : CacheMap :=
  fun k => if k = videoID then
    some ⟨videoID, title, summary, timestamps, transcript, now⟩
  else items k

/-- `SummaryCache.Set`.  Disk I/O is abstracted by the oracle
`diskWriteOk`, which tells for each file name whether creating and
encoding it succeeds.  The map update happens unconditionally; the
returned flag is `true` iff `saveToDisk` failed, which is exactly the
error `Set` propagates. -/
def cacheSet (items : CacheMap) (cacheDir : String)
    (diskWriteOk : String → Bool) (videoID title summary : String)
    (timestamps : List Timestamp) (transcript : List TranscriptItem)
    (now : Nat) : CacheMap × Bool :=
  (cacheSetItem items videoID title summary timestamps transcript now,
    !diskWriteOk (cacheFileName cacheDir videoID))

/-- C7: after `Set(videoId, …)`, `Get(videoId)` hits with the new entry
regardless of the disk outcome; `Set` errors exactly when writing
`<videoId>.json` failed; and every other key's entry is untouched. -/
theorem cacheSet_spec (items : CacheMap) (cacheDir : String)
    (diskWriteOk : String → Bool) (videoID title summary : String)
    (timestamps : List Timestamp) (transcript : List TranscriptItem)
    (now : Nat) :
    cacheGet (cacheSet items cacheDir diskWriteOk videoID title summary
        timestamps transcript now).1 videoID =
      some ⟨videoID, title, summary, timestamps, transcript, now⟩ ∧
    ((cacheSet items cacheDir diskWriteOk videoID title summary
        timestamps transcript now).2 = true ↔
      diskWriteOk (cacheFileName cacheDir videoID) = false) ∧
    (∀ k, k ≠ videoID →
      cacheGet (cacheSet items cacheDir diskWriteOk videoID title summary
        timestamps transcript now).1 k = cacheGet items k) := by
  refine ⟨?_, ?_, ?_⟩
  · simp [cacheSet, cacheSetItem, cacheGet]
  · simp [cacheSet]
  · intro k hk
    simp [cacheSet, cacheSetItem, cacheGet, hk]

/-- C7 witness: a failing disk write still installs the entry in
memory, reports the error, and leaves other keys untouched. -/
theorem cacheSet_spec_witness :
    cacheGet (cacheSet (fun _ => none) "cache" (fun _ => false) "vid" "T" "S"
        [] [] 3).1 "vid" = some ⟨"vid", "T", "S", [], [], 3⟩ ∧
    (cacheSet (fun _ => none) "cache" (fun _ => false) "vid" "T" "S"
        [] [] 3).2 = true ∧
    cacheGet (cacheSet (fun _ => none) "cache" (fun _ => false) "vid" "T" "S"
        [] [] 3).1 "other" = none := by
  have h := cacheSet_spec (fun _ => none) "cache" (fun _ => false) "vid" "T" "S"
    [] [] 3
  exact ⟨h.1, h.2.1.mpr rfl, h.2.2 "other" (by decide)⟩

/-! ## models/user_summary.go — per-user history -/

/-- `models.UserSummary`.  `viewedAt` models `time.Now()` as an
abstract monotone tick. -/
structure UserSummary where
  videoId : String
  videoTitle : String
  viewedAt : Nat
  deriving DecidableEq, Repr

/-- `models.maxUserSummaries` (default, `SetMaxUserSummaries` aside). -/
def maxUserSummaries : Nat := 50

/-- Ascending `ViewedAt` order used by the `sort.Slice` call in
`AddUserSummary` (`less = a.Before(b)`; any ascending permutation is a
legal outcome of Go's unstable sort, and insertion sort realises one). -/
def viewedLE (a b : UserSummary) : Prop := a.viewedAt ≤ b.viewedAt

instance : DecidableRel viewedLE :=
  fun a b => inferInstanceAs (Decidable (a.viewedAt ≤ b.viewedAt))

instance : IsTotal UserSummary viewedLE := ⟨fun a b => Nat.le_total a.viewedAt b.viewedAt⟩

instance : IsTrans UserSummary viewedLE := ⟨fun _ _ _ h1 h2 => Nat.le_trans h1 h2⟩

/-- The `if len(newSummaries) > maxUserSummaries` truncation: keep the
slice `newSummaries[len-max:]`, i.e. the newest `max` entries of the
ascending list. -/
def truncateOldest (l : List UserSummary) : List UserSummary :=
  if l.length > maxUserSummaries then l.drop (l.length - maxUserSummaries) else l

/-- The state transformation of a successful `models.AddUserSummary`
run: drop any prior entry for `videoID`, append the new entry stamped
`now`, sort ascending by `ViewedAt`, and keep only the newest
`maxUserSummaries` entries (the slice `[len-max:]`).  File loading and
rewriting are the identity on this list when they succeed. -/
def AddUserSummary (prior : List UserSummary) (videoID videoTitle : String)
    (now : Nat) : List UserSummary :=
  truncateOldest (List.insertionSort viewedLE
    (prior.filter (fun s => s.videoId ≠ videoID) ++ [⟨videoID, videoTitle, now⟩]))

theorem truncateOldest_eq_drop (l : List UserSummary) :
    truncateOldest l = l.drop (l.length - maxUserSummaries) := by
  unfold truncateOldest
  split
  · rfl
  · next h =>
    rw [Nat.sub_eq_zero_of_le (Nat.le_of_not_lt h), List.drop_zero]

/-- C8: after a successful `AddUserSummary(userId, videoId, title)` on a
history whose entries are strictly older than `now` and whose videoIds
are distinct, the entry for `videoId` occurs exactly once (it is the
freshly stamped one), it is the most recent, videoIds stay distinct,
the history holds at most `maxUserSummaries` (50) entries, and any
evicted entry is at least as old as every kept one. -/
theorem AddUserSummary_spec (prior : List UserSummary) (videoID videoTitle : String)
    (now : Nat)
    (hclock : ∀ e ∈ prior, e.viewedAt < now)
    (hnodup : (prior.map UserSummary.videoId).Nodup) :
    (AddUserSummary prior videoID videoTitle now).filter
        (fun s => s.videoId = videoID) = [⟨videoID, videoTitle, now⟩] ∧
    (∀ e ∈ AddUserSummary prior videoID videoTitle now, e.viewedAt ≤ now) ∧
    ((AddUserSummary prior videoID videoTitle now).map UserSummary.videoId).Nodup ∧
    (AddUserSummary prior videoID videoTitle now).length ≤ maxUserSummaries ∧
    (∀ e ∈ prior, e.videoId ≠ videoID →
      e ∉ AddUserSummary prior videoID videoTitle now →
      ∀ e2 ∈ AddUserSummary prior videoID videoTitle now,
        e.viewedAt ≤ e2.viewedAt) := by
  set n : UserSummary := ⟨videoID, videoTitle, now⟩ with hn
  set filtered := prior.filter (fun s => s.videoId ≠ videoID) with hfiltered
  set app := filtered ++ [n] with happ
  set sorted := List.insertionSort viewedLE app with hsorted_def
  set k := sorted.length - maxUserSummaries with hk
  have hres : AddUserSummary prior videoID videoTitle now = sorted.drop k := by
    rw [AddUserSummary, truncateOldest_eq_drop]
  have hperm : sorted.Perm app := List.perm_insertionSort _ _
  have hsorted : List.Sorted viewedLE sorted := List.sorted_insertionSort _ _
  have hfiltLt : ∀ e ∈ filtered, e.viewedAt < now := by
    intro e he
    exact hclock e (List.mem_filter.mp he).1
  have hfiltNe : ∀ e ∈ filtered, e.videoId ≠ videoID := by
    intro e he
    simpa using (List.mem_filter.mp he).2
  have happMem : ∀ e ∈ app, e ∈ filtered ∨ e = n := by
    intro e he
    rcases List.mem_append.mp he with h | h
    · exact Or.inl h
    · exact Or.inr (List.mem_singleton.mp h)
  have hlen : sorted.length = filtered.length + 1 := by
    rw [hperm.length_eq, happ]
    simp
  have hklt : k < sorted.length := by
    rw [hk]
    have : 0 < sorted.length := by omega
    exact Nat.sub_lt this (by norm_num [maxUserSummaries])
  have hn_sorted : n ∈ sorted :=
    hperm.mem_iff.mpr (List.mem_append_right _ (List.mem_singleton_self n))
  have hmem_le : ∀ e ∈ sorted, e.viewedAt ≤ now := by
    intro e he
    rcases happMem e (hperm.mem_iff.mp he) with h | h
    · exact Nat.le_of_lt (hfiltLt e h)
    · rw [h]
  have hn_res : n ∈ sorted.drop k := by
    have hsplit : n ∈ sorted.take k ++ sorted.drop k := by
      rw [List.take_append_drop]
      exact hn_sorted
    rcases List.mem_append.mp hsplit with htake | hdrop
    · have hdlen : 0 < (sorted.drop k).length := by
        rw [List.length_drop]
        omega
      obtain ⟨b, hb⟩ := List.exists_mem_of_length_pos hdlen
      have hrel : viewedLE n b :=
        List.Pairwise.rel_of_mem_take_of_mem_drop hsorted htake hb
      have hb_sorted : b ∈ sorted := List.mem_of_mem_drop hb
      rcases happMem b (hperm.mem_iff.mp hb_sorted) with h | h
      · have := hfiltLt b h
        have : now ≤ b.viewedAt := hrel
        omega
      · exact h ▸ hb
    · exact hdrop
  have happ_filter : app.filter (fun s => s.videoId = videoID) = [n] := by
    rw [happ, List.filter_append]
    have h1 : filtered.filter (fun s => s.videoId = videoID) = [] := by
      rw [List.filter_eq_nil_iff]
      intro e he
      simpa using hfiltNe e he
    have h2 : [n].filter (fun s => s.videoId = videoID) = [n] := by
      simp [hn]
    rw [h1, h2, List.nil_append]
  have hsorted_filter : sorted.filter (fun s => s.videoId = videoID) = [n] :=
    List.perm_singleton.mp (happ_filter ▸ hperm.filter _)
  refine ⟨?_, ?_, ?_, ?_, ?_⟩
  · rw [hres]
    have hsub : List.Sublist
        ((sorted.drop k).filter (fun s => s.videoId = videoID))
        (sorted.filter (fun s => s.videoId = videoID)) :=
      (List.drop_sublist k sorted).filter _
    rw [hsorted_filter] at hsub
    have hnmem : n ∈ (sorted.drop k).filter (fun s => s.videoId = videoID) :=
      List.mem_filter.mpr ⟨hn_res, by simp [hn]⟩
    rcases List.sublist_singleton.mp hsub with h | h
    · rw [h] at hnmem
      exact absurd hnmem (List.not_mem_nil _)
    · exact h
  · intro e he
    rw [hres] at he
    exact hmem_le e (List.mem_of_mem_drop he)
  · have hfn : filtered.map UserSummary.videoId |>.Nodup :=
      ((List.filter_sublist prior).map _).nodup hnodup
    have hvn : videoID ∉ filtered.map UserSummary.videoId := by
      intro hmem
      obtain ⟨e, he, heq⟩ := List.mem_map.mp hmem
      exact hfiltNe e he heq
    have happN : (app.map UserSummary.videoId).Nodup := by
      rw [happ, List.map_append]
      refine List.nodup_append.mpr ⟨hfn, List.nodup_singleton _, ?_⟩
      intro a ha hb
      have : a = videoID := by simpa [hn] using hb
      rw [this] at ha
      exact hvn ha
    have hsortedN : (sorted.map UserSummary.videoId).Nodup :=
      ((hperm.map _).nodup_iff).mpr happN
    rw [hres, List.map_drop]
    exact hsortedN.sublist (List.drop_sublist _ _)
  · rw [hres, List.length_drop]
    omega
  · intro e he hne hnotin e2 he2
    rw [hres] at hnotin he2
    have he_filtered : e ∈ filtered :=
      List.mem_filter.mpr ⟨he, by simpa using hne⟩
    have he_sorted : e ∈ sorted := hperm.mem_iff.mpr (List.mem_append_left _ he_filtered)
    have hsplit : e ∈ sorted.take k ++ sorted.drop k := by
      rw [List.take_append_drop]
      exact he_sorted
    rcases List.mem_append.mp hsplit with htake | hdrop
    · have hrel : viewedLE e e2 :=
        List.Pairwise.rel_of_mem_take_of_mem_drop hsorted htake he2
      exact hrel
    · exact absurd hdrop hnotin

/-- C8 witness: adding `"c"` at tick 5 to a two-entry history. -/
theorem AddUserSummary_spec_witness :
    (AddUserSummary [⟨"a", "ta", 1⟩, ⟨"b", "tb", 2⟩] "c" "tc" 5).filter
        (fun s => s.videoId = "c") = [⟨"c", "tc", 5⟩] ∧
    (AddUserSummary [⟨"a", "ta", 1⟩, ⟨"b", "tb", 2⟩] "c" "tc" 5).length ≤
      maxUserSummaries := by
  have h := AddUserSummary_spec [⟨"a", "ta", 1⟩, ⟨"b", "tb", 2⟩] "c" "tc" 5
    (by decide) (by decide)
  exact ⟨h.1, h.2.2.2.1⟩

/-! ## api/summary.go — SSE hub, active-video registry, worker fan-out,
request handler -/

/-- `api.SummaryResponse`. -/
structure SummaryResponse where
  videoId : String
  title : String
  summary : String
  timestamps : List Timestamp
  transcript : List TranscriptItem
  cached : Bool
  deriving DecidableEq, Repr

/-- One pre-formatted SSE frame as handed to `sendSSEMessage`: either
`event: summary_complete` with the marshalled `SummaryResponse`, or
`event: summary_error` with `{videoId, error}`.  (The byte encoding
`event: …\ndata: …\n\n` is injective, so frames are modelled
structurally; `json.Marshal` of these flat records cannot fail.) -/
inductive SSEFrame where
  | complete (resp : SummaryResponse)
  | error (videoId errMsg : String)
  deriving DecidableEq, Repr

/-- One client channel of the hub.  `HandleSummaryEvents` creates every
channel as `make(chan []byte, 10)`; `buf` is its current buffered
content. -/
structure SSEChannel where
  buf : List SSEFrame
  deriving DecidableEq, Repr

/-- The channel capacity used at `make(chan []byte, 10)`. -/
def sseChannelCapacity : Nat := 10

/-- The global map `clientChannels : map[string]chan []byte`. -/
abbrev ClientChannels := String → Option SSEChannel

/-- What became of a `sendSSEMessage` call. -/
inductive SendOutcome where
  | delivered
  | dropped
  | noChannel
  deriving DecidableEq, Repr

/-- `api.sendSSEMessage(userID, message)`: look up the channel under a
read lock; if present, a nonblocking `select` either appends to the
buffer (space available) or drops the message (buffer full); if absent
the message is discarded.  The function always returns. -/
def sendSSEMessage (chans : ClientChannels) (userID : String)
    (message : SSEFrame) : ClientChannels × SendOutcome :=
  match chans userID with
  | some ch =>
    if ch.buf.length < sseChannelCapacity then
      (fun u => if u = userID then some ⟨ch.buf ++ [message]⟩ else chans u,
        .delivered)
    else (chans, .dropped)
  | none => (chans, .noChannel)

/-! ### C10: sendSSEMessage is total, frame-preserving on registrations -/

/-- C10: `sendSSEMessage` is a total function (it never blocks or
fails); with a registered channel that has space the frame is appended,
with a full buffer it is dropped, with no channel it is discarded; and
in every case which users have a channel registered is unchanged (only
the target channel's buffered content can change). -/
theorem sendSSEMessage_spec (chans : ClientChannels) (userID : String)
    (message : SSEFrame) :
    (∀ u, ((sendSSEMessage chans userID message).1 u).isSome =
      (chans u).isSome) ∧
    (chans userID = none →
      ∀ u, (sendSSEMessage chans userID message).1 u = chans u) ∧
    (∀ ch, chans userID = some ch → ch.buf.length < sseChannelCapacity →
      (sendSSEMessage chans userID message).1 userID =
        some ⟨ch.buf ++ [message]⟩ ∧
      ∀ u, u ≠ userID →
        (sendSSEMessage chans userID message).1 u = chans u) ∧
    (∀ ch, chans userID = some ch → ¬ch.buf.length < sseChannelCapacity →
      ∀ u, (sendSSEMessage chans userID message).1 u = chans u) := by
  refine ⟨?_, ?_, ?_, ?_⟩
  · intro u
    unfold sendSSEMessage
    split
    · next ch hch =>
      split
      · by_cases hu : u = userID
        · subst hu
          simp [hch]
        · simp [hu]
      · rfl
    · rfl
  · intro hnone u
    unfold sendSSEMessage
    rw [hnone]
  · intro ch hch hlt
    refine ⟨by simp [sendSSEMessage, hch, hlt], ?_⟩
    intro u hu
    simp [sendSSEMessage, hch, hlt, hu]
  · intro ch hch hfull
    intro u
    simp [sendSSEMessage, hch, hfull]

/-- C10 witness: the hub with a single empty channel for `"alice"`.
Sending to `"bob"` (unregistered) changes nothing; sending to
`"alice"` appends to her buffer and keeps registrations intact. -/
theorem sendSSEMessage_spec_witness :
    (sendSSEMessage
        (fun u => if u = "alice" then some ⟨[]⟩ else none) "bob"
        (.error "v" "e")).1 "alice" =
      some (⟨[]⟩ : SSEChannel) ∧
    (sendSSEMessage
        (fun u => if u = "alice" then some ⟨[]⟩ else none) "alice"
        (.error "v" "e")).1 "alice" =
      some ⟨[.error "v" "e"]⟩ := by
  have h1 := sendSSEMessage_spec
    (fun u => if u = "alice" then some ⟨[]⟩ else none) "bob" (.error "v" "e")
  have h2 := sendSSEMessage_spec
    (fun u => if u = "alice" then some ⟨[]⟩ else none) "alice" (.error "v" "e")
  refine ⟨h1.2.1 rfl "alice", ?_⟩
  have := h2.2.2.1 ⟨[]⟩ rfl (by norm_num [sseChannelCapacity])
  simpa using this.1

/-! ### The active-video registry -/

/-- The global map `activeVideoJobs : map[string][]string`, as an
association list with distinct keys. -/
abbrev Registry := List (String × List String)

/-- Map read `activeVideoJobs[videoID]`. -/
def regLookup (reg : Registry) (vid : String) : Option (List String) :=
  (reg.find? (fun p => p.1 = vid)).map Prod.snd

/-- Map delete `delete(activeVideoJobs, videoID)`. -/
def regErase (reg : Registry) (vid : String) : Registry :=
  reg.filter (fun p => p.1 ≠ vid)

/-- Map assignment `activeVideoJobs[videoID] = subs`. -/
def regSet (reg : Registry) (vid : String) (subs : List String) : Registry :=
  if reg.any (fun p => p.1 = vid) then
    reg.map (fun p => if p.1 = vid then (vid, subs) else p)
  else reg ++ [(vid, subs)]

theorem regLookup_none_iff {reg : Registry} {vid : String} :
    regLookup reg vid = none ↔ ∀ p ∈ reg, p.1 ≠ vid := by
  unfold regLookup
  rw [Option.map_eq_none', List.find?_eq_none]
  simp

theorem regErase_regSet_absent {reg : Registry} {vid : String}
    (subs : List String) (h : regLookup reg vid = none) :
    regErase (regSet reg vid subs) vid = reg := by
  have hall := regLookup_none_iff.mp h
  have hany : reg.any (fun p => p.1 = vid) = false := by
    rw [List.any_eq_false]
    intro p hp
    simpa using hall p hp
  unfold regSet
  rw [hany]
  simp only [Bool.false_eq_true, if_false]
  unfold regErase
  rw [List.filter_append]
  have h1 : reg.filter (fun p => p.1 ≠ vid) = reg :=
    List.filter_eq_self.mpr (fun p hp => by simpa using hall p hp)
  have h2 : ([(vid, subs)] : Registry).filter (fun p => p.1 ≠ vid) = [] := by
    simp
  rw [h1, h2, List.append_nil]

theorem regLookup_regErase {reg : Registry} {vid : String} :
    regLookup (regErase reg vid) vid = none := by
  rw [regLookup_none_iff]
  intro p hp
  have := List.mem_filter.mp hp
  simpa using this.2

/-! ### The worker's fan-out step -/

/-- `takeSubscribers`: one mutex-guarded block of the worker loop —
read `activeVideoJobs[videoID]` (empty slice when absent) and delete
the entry. -/
def takeSubscribers (reg : Registry) (vid : String) :
    List String × Registry :=
  ((regLookup reg vid).getD [], regErase reg vid)

/-- The worker's post-processing step, after
`processSummarizationJob` returns (`summaryResp, err`).  The source
performs the read-and-delete **twice**: the first block reads
`activeVideoJobs[job.VideoID]` and deletes the entry, discarding its
result; the second block re-reads `activeVideoJobs[currentJob.VideoID]`
(the same id, now deleted) and its — empty — subscriber list drives the
fan-out loop, which calls `sendSSEMessage` once per subscriber with a
`summary_error` frame on error or a `summary_complete` frame on
success.  The returned list records the `sendSSEMessage` calls in
order. -/
def workerNotify (reg : Registry) (videoID : String)
    (outcome : Except String SummaryResponse) :
    Registry × List (String × SSEFrame) :=
  ((takeSubscribers (takeSubscribers reg videoID).2 videoID).2,
    (takeSubscribers (takeSubscribers reg videoID).2 videoID).1.map
      (fun uid =>
        (uid, match outcome with
          | .error e => SSEFrame.error videoID e
          | .ok resp => SSEFrame.complete resp)))

/-- C1: evaluating the worker's fan-out step at a registry holding two
subscribers for the finished video: the first (duplicated) take-and-
delete block empties the registry entry, the second re-read finds no
subscribers, and **no** SSE frame is sent to anyone — although the
claim (and the spec's worker algorithm) require exactly one
`summary_complete` frame per subscriber.  The registry entry itself is
removed, as specified. -/
theorem workerNotify_sends_no_frames :
    workerNotify [("dQw4w9WgXcQ", ["u1", "u2"])] "dQw4w9WgXcQ"
        (.ok ⟨"dQw4w9WgXcQ", "T", "S", [], [], false⟩) =
      ([], []) ∧
    (workerNotify [("dQw4w9WgXcQ", ["u1", "u2"])] "dQw4w9WgXcQ"
        (.ok ⟨"dQw4w9WgXcQ", "T", "S", [], [], false⟩)).2.length ≠ 2 := by
  constructor
  · decide
  · decide

/-! ### MergeTranscript and the request handler -/

/-- `intervalSeconds = 15.0` of `api.MergeTranscript`, in ms. -/
def mergeIntervalMs : ℤ := 15000

/-- The loop of `api.MergeTranscript`: successive items starting within
15 s of the current item's start are folded into it (texts
concatenated, duration stretched to the last item's end); otherwise the
current item is emitted and the next one starts a group. -/
def mergeLoop (currentItem : TranscriptItem) :
    List TranscriptItem → List TranscriptItem
  | [] => [currentItem]
  | item :: rest =>
    if item.start - currentItem.start < mergeIntervalMs then
      mergeLoop ⟨currentItem.text ++ item.text, currentItem.start,
        item.start + item.duration - currentItem.start⟩ rest
    else currentItem :: mergeLoop item rest

/-- `api.MergeTranscript`. -/
def MergeTranscript : List TranscriptItem → List TranscriptItem
  | [] => []
  | first :: rest => mergeLoop first rest

/-- HTTP statuses `api.HandleSummaryRequest` can produce. -/
inductive HStatus where
  | ok
  | accepted
  | badRequest
  | unauthorized
  | forbidden
  | serviceUnavailable
  deriving DecidableEq, Repr

/-- `api.SummarizationJob`. -/
structure SummarizationJob where
  videoId : String
  userId : String
  apiKey : String
  url : String
  isSSE : Bool
  clientId : String
  deriving DecidableEq, Repr

/-- The global state `HandleSummaryRequest` touches: the summary cache
map, the active-video registry, the job queue's buffered content, and
the requesting user's history file. -/
structure HandlerState where
  cache : CacheMap
  reg : Registry
  queue : List SummarizationJob
  hist : List UserSummary

/-- A handler run: final state, HTTP status, and the synchronous
`SummaryResponse` body (present only on a cache hit). -/
structure HandlerResult where
  state : HandlerState
  status : HStatus
  response : Option SummaryResponse

/-- `api.HandleSummaryRequest`, after JSON binding, as a function of
the request (`userID`, bearer-header key `userAPIKey`, `url`), the
policy decision `canUseServerKey` for this user, the queue capacity,
the transcript-fetch oracle `fetchedItems` (what yt-dlp + VTT parsing
would yield for this video, `none` on failure), and the clock `now`.

The source order is: authenticate (401), key-policy gate (403 when no
user key and no server-key right), `GetVideoID` (400), cache lookup
(200 — recording the hit in the user's history, refreshing a missing
transcript via a chunk-size-0 `GetTranscript` whose first chunk is
stored with `Set(videoID, title, summary, nil, transcript)` and
returned merged), active-job dedup (202), then registration plus
non-blocking enqueue (202, or 503 with the fresh registry entry
deleted again).  `Set`'s disk error and `AddUserSummary`'s error are
discarded by the source, so only their state effects appear. -/
def HandleSummaryRequest (st : HandlerState) (queueCapacity : Nat)
    (authenticated : Bool) (userID userAPIKey : String)
    (canUseServerKey : Bool) (url : String)
    (fetchedItems : Option (List TranscriptItem)) (now : Nat) :
    HandlerResult :=
  if !authenticated then ⟨st, .unauthorized, none⟩
  else if userAPIKey = "" ∧ ¬canUseServerKey then ⟨st, .forbidden, none⟩
  else
    match GetVideoID url with
    | none => ⟨st, .badRequest, none⟩
    | some videoID =>
      match cacheGet st.cache videoID with
      | some cachedItem =>
        if cachedItem.transcript.isEmpty then
          match GetTranscript fetchedItems 0 with
          | .ok chunks =>
            if 0 < chunks.length then
              ⟨⟨cacheSetItem st.cache videoID cachedItem.title
                  cachedItem.summary [] (chunks.headD []) now,
                st.reg, st.queue,
                AddUserSummary st.hist videoID cachedItem.title now⟩,
                .ok,
                some ⟨videoID, cachedItem.title, cachedItem.summary,
                  cachedItem.timestamps, MergeTranscript (chunks.headD []),
                  true⟩⟩
            else
              ⟨⟨st.cache, st.reg, st.queue,
                AddUserSummary st.hist videoID cachedItem.title now⟩,
                .ok,
                some ⟨videoID, cachedItem.title, cachedItem.summary,
                  cachedItem.timestamps,
                  MergeTranscript cachedItem.transcript, true⟩⟩
          | .error _ =>
            ⟨⟨st.cache, st.reg, st.queue,
              AddUserSummary st.hist videoID cachedItem.title now⟩,
              .ok,
              some ⟨videoID, cachedItem.title, cachedItem.summary,
                cachedItem.timestamps,
                MergeTranscript cachedItem.transcript, true⟩⟩
        else
          ⟨⟨st.cache, st.reg, st.queue,
            AddUserSummary st.hist videoID cachedItem.title now⟩,
            .ok,
            some ⟨videoID, cachedItem.title, cachedItem.summary,
              cachedItem.timestamps,
              MergeTranscript cachedItem.transcript, true⟩⟩
      | none =>
        match regLookup st.reg videoID with
        | some subscribers =>
          if userID ∈ subscribers then ⟨st, .accepted, none⟩
          else
            ⟨⟨st.cache, regSet st.reg videoID (subscribers ++ [userID]),
              st.queue, st.hist⟩, .accepted, none⟩
        | none =>
          if st.queue.length < queueCapacity then
            ⟨⟨st.cache, regSet st.reg videoID [userID],
              st.queue ++ [⟨videoID, userID, userAPIKey, url, true, ""⟩],
              st.hist⟩, .accepted, none⟩
          else
            ⟨⟨st.cache,
              regErase (regSet st.reg videoID [userID]) videoID,
              st.queue, st.hist⟩, .serviceUnavailable, none⟩

/-! ### C3: queue-full rollback -/

/-- C3: whenever `HandleSummaryRequest` answers 503 (queue full), the
registry is exactly what it was before the request, and in particular
holds no entry for the request's videoId. -/
theorem HandleSummaryRequest_503_rollback
    (st : HandlerState) (queueCapacity : Nat) (authenticated : Bool)
    (userID userAPIKey : String) (canUseServerKey : Bool) (url : String)
    (fetchedItems : Option (List TranscriptItem)) (now : Nat)
    (h : (HandleSummaryRequest st queueCapacity authenticated userID
      userAPIKey canUseServerKey url fetchedItems now).status =
      .serviceUnavailable) :
    (HandleSummaryRequest st queueCapacity authenticated userID
      userAPIKey canUseServerKey url fetchedItems now).state.reg = st.reg ∧
    (∀ vid, GetVideoID url = some vid →
      regLookup (HandleSummaryRequest st queueCapacity authenticated userID
        userAPIKey canUseServerKey url fetchedItems now).state.reg vid =
        none) := by
  revert h
  unfold HandleSummaryRequest
  repeat' split
  all_goals intro h
  all_goals try (exfalso; simp at h; done)
  next _xu videoID heqUrl _xc hcache _xr regNone hqueue =>
    refine ⟨regErase_regSet_absent [userID] regNone, ?_⟩
    intro vid hvid
    have hv : vid = videoID := by
      rw [heqUrl] at hvid
      exact (Option.some.inj hvid).symm
    rw [hv]
    show regLookup (regErase (regSet st.reg videoID [userID]) videoID)
      videoID = none
    rw [regErase_regSet_absent [userID] regNone]
    exact regNone

/-- C3 witness: capacity-1 queue already holding a job; a fresh request
for `dQw4w9WgXcQ` is rejected with 503 and the registry stays empty. -/
theorem HandleSummaryRequest_503_rollback_witness :
    (HandleSummaryRequest ⟨fun _ => none, [], [⟨"x", "u0", "", "u", true, ""⟩], []⟩
        1 true "u1" "k" true "https://youtu.be/dQw4w9WgXcQ" none 0).state.reg =
      ([] : Registry) ∧
    regLookup (HandleSummaryRequest
        ⟨fun _ => none, [], [⟨"x", "u0", "", "u", true, ""⟩], []⟩
        1 true "u1" "k" true "https://youtu.be/dQw4w9WgXcQ" none 0).state.reg
      "dQw4w9WgXcQ" = none := by
  have h := HandleSummaryRequest_503_rollback
    ⟨fun _ => none, [], [⟨"x", "u0", "", "u", true, ""⟩], []⟩
    1 true "u1" "k" true "https://youtu.be/dQw4w9WgXcQ" none 0 (by decide)
  exact ⟨h.1, h.2 "dQw4w9WgXcQ" (by decide)⟩

/-! ### C4: the cache-hit transcript refresh -/

/-- The cached entry (no transcript) used in the C4 evaluation. -/
def c4CacheItem : CacheItem := ⟨"abcdefghijk", "T", "S", [], [], 0⟩

/-- Handler state with `abcdefghijk` cached without transcript. -/
def c4State : HandlerState :=
  ⟨fun k => if k = "abcdefghijk" then some c4CacheItem else none, [], [], []⟩

/-- The video's transcript items the fetch oracle yields (two items,
20 s apart). -/
def c4Items : List TranscriptItem := [⟨"a", 0, 1000⟩, ⟨"b", 20000, 1000⟩]

/-- C4: evaluating the cache-hit path on an entry without transcript.
`GetTranscript(…, 0)` *succeeds with three chunks* — but with chunk
size 0 the splitting loop opens with an **empty first chunk** (the
first item already fails `item.Start - currentChunkStart < 0`), and
the handler stores and returns `chunks[0] = []`: the cache entry is
"updated" to an empty transcript (and its timestamps are wiped by the
`Set(…, nil, transcript)` call), and the synchronous response carries
no transcript — not the video's items, as the claim and the spec
require. -/
theorem cacheHit_refresh_stores_empty_transcript :
    GetTranscript (some c4Items) 0 =
      .ok [[], [⟨"a", 0, 1000⟩], [⟨"b", 20000, 1000⟩]] ∧
    (HandleSummaryRequest c4State 100 true "u1" "k" true
        "https://youtu.be/abcdefghijk" (some c4Items) 7).state.cache
        "abcdefghijk" =
      some ⟨"abcdefghijk", "T", "S", [], [], 7⟩ ∧
    (HandleSummaryRequest c4State 100 true "u1" "k" true
        "https://youtu.be/abcdefghijk" (some c4Items) 7).response =
      some ⟨"abcdefghijk", "T", "S", [], [], true⟩ := by
  refine ⟨rfl, by decide, by decide⟩

/-! ### C5: gate order — key policy before URL parsing -/

/-- Empty handler state for the C5 evaluations. -/
def c5State : HandlerState := ⟨fun _ => none, [], [], []⟩

/-- C5 counterexample: an authenticated request with an invalid URL,
no bearer key and no server-key right is answered 403 (forbidden), not
400 (bad request): the source consults the key policy *before* parsing
the URL, opposite to the spec's step order. -/
theorem invalidURL_noKey_gets_403_not_400 :
    GetVideoID "not a youtube url" = none ∧
    (HandleSummaryRequest c5State 100 true "u1" "" false
        "not a youtube url" none 0).status = .forbidden ∧
    (HandleSummaryRequest c5State 100 true "u1" "" false
        "not a youtube url" none 0).status ≠ .badRequest := by
  refine ⟨by decide, by decide, by decide⟩

/-- C5 (amended): the key-policy gate precedes URL parsing.  For an
authenticated submission whose URL is not an accepted YouTube form:
with no user key and no server-key right the handler returns 403;
with a user key or the server-key right it returns 400. -/
theorem keyGate_precedes_urlParse
    (st : HandlerState) (queueCapacity : Nat) (userID userAPIKey : String)
    (canUseServerKey : Bool) (url : String)
    (fetchedItems : Option (List TranscriptItem)) (now : Nat)
    (hurl : GetVideoID url = none) :
    (userAPIKey = "" ∧ ¬canUseServerKey →
      (HandleSummaryRequest st queueCapacity true userID userAPIKey
        canUseServerKey url fetchedItems now).status = .forbidden) ∧
    (userAPIKey ≠ "" ∨ canUseServerKey →
      (HandleSummaryRequest st queueCapacity true userID userAPIKey
        canUseServerKey url fetchedItems now).status = .badRequest) := by
  constructor
  · rintro ⟨h1, h2⟩
    unfold HandleSummaryRequest
    simp [h1, h2]
  · intro hor
    have hgate : ¬(userAPIKey = "" ∧ ¬canUseServerKey) := by
      rcases hor with h | h
      · exact fun hc => h hc.1
      · exact fun hc => hc.2 h
    unfold HandleSummaryRequest
    simp only [Bool.not_true, Bool.false_eq_true, if_false, if_neg hgate, hurl]

/-- C5 witness: with a user key supplied (`"k"`), the same invalid URL
is answered 400 via the amended theorem. -/
theorem keyGate_precedes_urlParse_witness :
    (HandleSummaryRequest c5State 100 true "u1" "k" false
        "not a youtube url" none 0).status = .badRequest :=
  (keyGate_precedes_urlParse c5State 100 "u1" "k" false
    "not a youtube url" none 0 (by decide)).2 (Or.inl (by decide))

end YTS
